import Mathlib

/-!
# Notes duck (`src/universal/redux/ducks/notes.js`)

A shallow embedding of the notes reducer, its action creators, the change-feed
handlers installed by `loadNotes`, and the reorder-index computation
`getNewIndex`.

Conventions of the embedding:

* numbers (`index`, `sourceIndex`, `targetIndex`) are exact finite numbers, `ℚ`;
* identifiers and action types are strings, compared with `=` where the source
  uses `===`;
* a JavaScript property that may be absent is an `Option`;
* `reducer` returns `none` where the JavaScript raises a `TypeError` or where the
  payload does not have the shape of a document the store can hold.
-/

namespace Notes

/-! ## Data model -/

/-- A note record, with the keys of `noteSchemaInsert`. -/
structure Note where
  id : String
  title : String
  laneId : String
  userId : String
  index : ℚ
deriving DecidableEq

/-- A metadata object; each of the three keys the duck uses may be absent. -/
structure Meta where
  table : Option String
  isOptimistic : Option Bool
  synced : Option Bool
deriving DecidableEq

/-- The shapes of `action.payload` the duck builds or reads:
absent, a note record, `{id}`, and the drag payload `{index, laneId, sourceId}`. -/
inductive Payload where
  | undefined
  | note (doc : Note)
  | id (id : String)
  | drag (index : ℚ) (laneId : String) (sourceId : String)
deriving DecidableEq

/-- A Redux action `{type, payload, meta, error}`; every key may be absent. -/
structure Action where
  type : Option String
  payload : Payload
  meta : Option Meta
  error : Option String
deriving DecidableEq

/-- The store state `{synced, error, data}`; `error` is `null` (`none`) or a message. -/
structure State where
  synced : Bool
  error : Option String
  data : List Note
deriving DecidableEq

/-! ## Action types (lines 23-38) -/

def NOTES : String := "notes"
def ADD_NOTE : String := "ADD_NOTE"
def UPDATE_NOTE : String := "UPDATE_NOTE"
def DELETE_NOTE : String := "DELETE_NOTE"
def DRAG_NOTE : String := "DRAG_NOTE"
def CLEAR_NOTES : String := "CLEAR_NOTES"
def ADD_NOTE_SUCCESS : String := "ADD_NOTE_SUCCESS"
def UPDATE_NOTE_SUCCESS : String := "UPDATE_NOTE_SUCCESS"
def DELETE_NOTE_SUCCESS : String := "DELETE_NOTE_SUCCESS"
def DROP_NOTE_SUCCESS : String := "DROP_NOTE_SUCCESS"
def ADD_NOTE_ERROR : String := "ADD_NOTE_ERROR"
def UPDATE_NOTE_ERROR : String := "UPDATE_NOTE_ERROR"
def DELETE_NOTE_ERROR : String := "DELETE_NOTE_ERROR"
def DROP_NOTE_ERROR : String := "DROP_NOTE_ERROR"

/-! ## Helpers imported from `../helpers.js` -/

/-- Modelled from the spec: `addImmutable` of `../helpers.js`, which is not among the
sources. The spec's reducer table gives ADD as "append note to `data`"; its §5 says that
an ADD whose `id` is already in `data` (the feed echo of an optimistic add) "overwrites
the optimistic entry by identity"; its §3 and §8 say every note of `data` has a unique
`id`. So the note replaces the entry with its `id` where there is one, and is appended
otherwise. -/
def addImmutable (doc : Note) : List Note → List Note
  | [] => [doc]
  | n :: rest => if n.id = doc.id then doc :: rest else n :: addImmutable doc rest

/-- Modelled from the spec: `updateImmutable` of `../helpers.js`, which is not among
the sources. The spec gives UPDATE as "replace the note with matching `id` in place",
and an unknown `id` as a no-op. -/
def updateImmutable (doc : Note) : List Note → List Note
  | [] => []
  | n :: rest => if n.id = doc.id then doc :: rest else n :: updateImmutable doc rest

/-- Modelled from the spec: `deleteImmutable` of `../helpers.js`, which is not among
the sources. The spec gives DELETE as "remove the note with matching `id`", and an
unknown `id` as a no-op. -/
def deleteImmutable (id : String) : List Note → List Note
  | [] => []
  | n :: rest => if n.id = id then rest else n :: deleteImmutable id rest

/-! ## Reducer (lines 44-97) -/

/-- The constant `initialState` (lines 44-48). -/
def initialState : State :=
  { synced := false, error := none, data := [] }

/-- The expression `action.meta && action.meta.synced || false` (lines 54, 60, 66):
`false` when `meta` is absent or has no `synced`, otherwise `meta.synced`. -/
def metaSynced (action : Action) : Bool :=
  match action.meta with
  | none => false
  | some m =>
    match m.synced with
    | none => false
    | some b => b || false

/-- The expression `action.error || 'Error'` (line 91): the empty string is falsy. -/
def errorOrDefault (action : Action) : String :=
  match action.error with
  | none => "Error"
  | some e => if e = "" then "Error" else e

/-- The function `reducer` (lines 50-97), with the `switch` read top to bottom.
The result is `none` where the payload is `undefined` and the case reads a
property of it (a `TypeError`), and where ADD or UPDATE carries a payload that is
not a note record. -/
def reducer (state : State) (action : Action) : Option State :=
  if action.type = some ADD_NOTE then
    match action.payload with
    | .note doc =>
      some { state with
        synced := metaSynced action
        data := addImmutable doc state.data }
    | _ => none
  else if action.type = some UPDATE_NOTE then
    match action.payload with
    | .note doc =>
      some { state with
        synced := metaSynced action
        data := updateImmutable doc state.data }
    | _ => none
  else if action.type = some DELETE_NOTE then
    match action.payload with
    | .note doc =>
      some { state with
        synced := metaSynced action
        data := deleteImmutable doc.id state.data }
    | .id i =>
      some { state with
        synced := metaSynced action
        data := deleteImmutable i state.data }
    | _ => none
  else if action.type = some CLEAR_NOTES then
    some initialState
  else if action.type = some DRAG_NOTE then
    match action.payload with
    | .drag index laneId sourceId =>
      some { state with
        data := state.data.map fun note =>
          if note.id = sourceId then { note with index := index, laneId := laneId }
          else note }
    | .note _ => some { state with data := state.data.map fun note => note }
    | .id _ => some { state with data := state.data.map fun note => note }
    | .undefined => none
  else if action.type = some ADD_NOTE_SUCCESS
      ∨ action.type = some UPDATE_NOTE_SUCCESS
      ∨ action.type = some DELETE_NOTE_SUCCESS then
    some { state with synced := true, error := none }
  else if action.type = some ADD_NOTE_ERROR
      ∨ action.type = some UPDATE_NOTE_ERROR
      ∨ action.type = some DELETE_NOTE_ERROR then
    some { state with synced := true, error := some (errorOrDefault action) }
  else
    some state

/-- Dispatching a list of actions in order, each through `reducer`. -/
def dispatchAll : State → List Action → Option State
  | state, [] => some state
  | state, action :: rest =>
    match reducer state action with
    | none => none
    | some next => dispatchAll next rest

/-! ## Action creators (lines 102-153) -/

/-- The constant `baseMeta` (lines 102-106). -/
def baseMeta : Meta :=
  { table := some NOTES, isOptimistic := some true, synced := some false }

/-- The call `Object.assign({}, baseMeta, meta)`: each key of the supplied `meta`
overrides the base; an absent `meta` argument contributes nothing. -/
def assignMeta (base : Meta) (supplied : Option Meta) : Meta :=
  match supplied with
  | none => base
  | some m =>
    { table := m.table.orElse fun _ => base.table
      isOptimistic := m.isOptimistic.orElse fun _ => base.isOptimistic
      synced := m.synced.orElse fun _ => base.synced }

/-- The function `addNote` (lines 131-137). -/
def addNote (payload : Payload) (supplied : Option Meta) : Action :=
  { type := some ADD_NOTE, payload := payload,
    meta := some (assignMeta baseMeta supplied), error := none }

/-- The function `updateNote` (lines 139-145). -/
def updateNote (payload : Payload) (supplied : Option Meta) : Action :=
  { type := some UPDATE_NOTE, payload := payload,
    meta := some (assignMeta baseMeta supplied), error := none }

/-- The function `deleteNote` (lines 147-153); the payload is `{id}`. -/
def deleteNote (id : String) (supplied : Option Meta) : Action :=
  { type := some DELETE_NOTE, payload := .id id,
    meta := some (assignMeta baseMeta supplied), error := none }

/-! ## Change-feed bridge (lines 108-129) -/

/-- A change-feed event `{old_val, new_val}`. -/
structure FeedEvent where
  old_val : Option Note
  new_val : Option Note
deriving DecidableEq

/-- A feed value passed as a payload: `undefined` when absent. -/
def Payload.ofVal : Option Note → Payload
  | none => .undefined
  | some doc => .note doc

/-- The handler `socket.on(sub, data => ...)` (lines 113-122), as the list of the
actions it passes to `dispatch`, in order. -/
def onFeedEvent (data : FeedEvent) : List Action :=
  let supplied : Meta := { table := none, isOptimistic := none, synced := some true }
  match data.old_val with
  | none => [addNote (Payload.ofVal data.new_val) (some supplied)]
  | some old =>
    match data.new_val with
    | none => [deleteNote old.id (some supplied)]
    | some new => [updateNote (.note new) (some supplied)]

/-- The handler `socket.on('unsubscribe', channelName => ...)` (lines 123-127), as the
list of the actions it passes to `dispatch`. -/
def onUnsubscribe (channelName : String) : List Action :=
  let sub := "allNotes"
  if channelName = sub then
    [{ type := some CLEAR_NOTES, payload := .undefined, meta := none, error := none }]
  else []

/-! ## Reorder index (lines 172-188) -/

/-- The payload of a move, as `getNewIndex` destructures it (line 173). -/
structure MovePayload where
  sourceId : String
  sourceIndex : ℚ
  sourceLaneId : String
  targetLaneId : String
  targetIndex : ℚ
deriving DecidableEq

/-- The direction `xfactor` (lines 174-178). -/
def xfactor (payload : MovePayload) : ℚ :=
  if (payload.targetLaneId = payload.sourceLaneId
        ∧ payload.sourceIndex > payload.targetIndex)
      ∨ payload.targetLaneId ≠ payload.sourceLaneId then -1
  else 1

/-- The test `xfactor * index < xfactor * minIndex` (line 183). The variable
`minIndex` holds either its initial value `Infinity * xfactor`, written `none`, or
the finite index of a note; `xfactor * (Infinity * xfactor)` is `+Infinity` for
`xfactor = ±1`, above every finite number. -/
def belowMin (x index : ℚ) (minIndex : Option ℚ) : Bool :=
  match minIndex with
  | none => true
  | some m => decide (x * index < x * m)

/-- One iteration of the loop body (lines 181-185). -/
def scanNote (payload : MovePayload) (x : ℚ) (minIndex : Option ℚ) (curNote : Note) :
    Option ℚ :=
  if curNote.id = payload.sourceId ∨ curNote.laneId ≠ payload.sourceLaneId then minIndex
  else if x * curNote.index > x * payload.targetIndex
      ∧ belowMin x curNote.index minIndex = true then some curNote.index
  else minIndex

/-- The function `getNewIndex` (lines 172-188). The loop is a left fold over `notes`
from `minIndex = Infinity * xfactor` (`none`); the final test
`minIndex === Infinity * xfactor` holds exactly when `minIndex` was never assigned. -/
def getNewIndex (notes : List Note) (payload : MovePayload) : ℚ :=
  let x := xfactor payload
  match notes.foldl (scanNote payload x) none with
  | none => payload.targetIndex + x
  | some minIndex => (payload.targetIndex + minIndex) / 2

/-! ## The reference algorithm of the specification -/

/-- The direction as the specification words it: `-1` when the move is within one
lane to a lower index, or to a different lane; else `+1`. -/
def specXfactor (payload : MovePayload) : ℚ :=
  if (payload.targetLaneId = payload.sourceLaneId
        ∧ payload.sourceIndex > payload.targetIndex)
      ∨ payload.targetLaneId ≠ payload.sourceLaneId then -1
  else 1

/-- The set `N` of the specification: the notes other than the source, in the
target lane, whose index lies strictly beyond `targetIndex` in the direction. -/
def specNeighbours (notes : List Note) (payload : MovePayload) : List Note :=
  notes.filter fun n =>
    decide (n.id ≠ payload.sourceId) && decide (n.laneId = payload.targetLaneId)
      && decide (specXfactor payload * n.index > specXfactor payload * payload.targetIndex)

/-- The nearest of a list of indices in direction `x`: the one with the least
`x * index`, the first such when several are equal. -/
def specNearest (x : ℚ) : List ℚ → Option ℚ
  | [] => none
  | i :: rest =>
    match specNearest x rest with
    | none => some i
    | some m => if x * i ≤ x * m then some i else some m

/-- The reference algorithm of the specification (§4.3, steps 1-4). -/
def specNewIndex (notes : List Note) (payload : MovePayload) : ℚ :=
  match specNearest (specXfactor payload) ((specNeighbours notes payload).map Note.index) with
  | none => payload.targetIndex + specXfactor payload
  | some m => (payload.targetIndex + m) / 2

/-- The ids of the notes of a list, in order. -/
def ids (data : List Note) : List String :=
  data.map Note.id

/-! ## Predicates used in the statements -/

/-- The action types the `switch` of `reducer` has a `case` for. -/
def recognizedTypes : List (Option String) :=
  [some ADD_NOTE, some UPDATE_NOTE, some DELETE_NOTE, some CLEAR_NOTES, some DRAG_NOTE,
    some ADD_NOTE_SUCCESS, some UPDATE_NOTE_SUCCESS, some DELETE_NOTE_SUCCESS,
    some ADD_NOTE_ERROR, some UPDATE_NOTE_ERROR, some DELETE_NOTE_ERROR]

/-- An ADD_NOTE or UPDATE_NOTE action carrying a note record, or a DELETE_NOTE action
carrying `{id}` or a note record. -/
def CrudAction (action : Action) : Prop :=
  ((action.type = some ADD_NOTE ∨ action.type = some UPDATE_NOTE)
      ∧ ∃ doc, action.payload = .note doc)
    ∨ (action.type = some DELETE_NOTE
      ∧ ((∃ doc, action.payload = .note doc) ∨ ∃ i, action.payload = .id i))

/-- What DRAG_NOTE makes of a note: `index` and `laneId` replaced, the rest kept. -/
def dragged (index : ℚ) (laneId : String) (note : Note) : Note :=
  { id := note.id, title := note.title, laneId := laneId, userId := note.userId,
    index := index }

/-! ## Sample data -/

def noteA : Note :=
  { id := "note-a", title := "a", laneId := "lane-1", userId := "user-1", index := 5 }

def noteB : Note :=
  { id := "note-b", title := "b", laneId := "lane-2", userId := "user-1", index := 1 / 2 }

def noteC : Note :=
  { id := "note-c", title := "c", laneId := "lane-2", userId := "user-1", index := 1 }

/-- The note `note-a` as the change feed echoes it. -/
def noteAEcho : Note :=
  { id := "note-a", title := "a (saved)", laneId := "lane-1", userId := "user-1", index := 5 }

/-- A board with one note in lane `lane-1` and two in lane `lane-2`. -/
def sampleNotes : List Note :=
  [noteA, noteB, noteC]

/-- A board with two notes in each of two lanes. -/
def twoLaneNotes : List Note :=
  [ { id := "note-s", title := "s", laneId := "lane-1", userId := "user-1", index := 5 },
    { id := "note-r", title := "r", laneId := "lane-1", userId := "user-1", index := 0 },
    { id := "note-t", title := "t", laneId := "lane-2", userId := "user-1", index := 1 },
    { id := "note-u", title := "u", laneId := "lane-2", userId := "user-1", index := 2 } ]

/-- Dragging `note-s` from `lane-1` onto `note-u` (index 2) of `lane-2`. -/
def twoLaneMove : MovePayload :=
  { sourceId := "note-s", sourceIndex := 5, sourceLaneId := "lane-1",
    targetLaneId := "lane-2", targetIndex := 2 }

/-- A store holding the sample board, with an error recorded. -/
def sampleState : State :=
  { synced := false, error := some "boom", data := sampleNotes }

/-- The metadata the change-feed handler supplies, `{synced: true}`. -/
def syncedMeta : Meta :=
  { table := none, isOptimistic := none, synced := some true }

/-- Dragging `note-a` from `lane-1` onto `note-c` (index 1) of `lane-2`. -/
def crossLaneMove : MovePayload :=
  { sourceId := "note-a", sourceIndex := 5, sourceLaneId := "lane-1",
    targetLaneId := "lane-2", targetIndex := 1 }

/-- The notes the loop of `getNewIndex` may assign to `minIndex`: those that pass
the `continue` test of line 182 and the first comparison of line 183. -/
def Candidate (payload : MovePayload) (x : ℚ) (n : Note) : Prop :=
  n.id ≠ payload.sourceId ∧ n.laneId = payload.sourceLaneId
    ∧ x * n.index > x * payload.targetIndex

/-! ## Drag (lines 155-170) -/

/-- The object `monitor.getItem()` returns: the item being dragged. Its `sourceId` key
is listed, absent unless something assigns it. -/
structure DragItem where
  id : String
  index : ℚ
  laneId : String
  sourceId : Option String
deriving DecidableEq

/-- The `props` of `dragNote`: the keys `getNewIndex` destructures, and the item the
monitor holds. -/
structure DragProps extends MovePayload where
  item : DragItem
deriving DecidableEq

/-- What a call of the thunk `dragNote(props)` does: the actions it passes to
`dispatch`, in order, and the monitor's item after the call. -/
structure DragEffect where
  dispatched : List Action
  item : DragItem
deriving DecidableEq

/-- The function `dragNote` (lines 155-170), run against the notes slice `notes` of
`getState()`. `Object.assign(monitor.getItem(), updates)` copies `index` and `laneId`
into the item; `Object.assign(updates, {sourceId})` then adds `sourceId` to `updates`
only, which becomes the payload. -/
def dragNote (props : DragProps) (notes : State) : DragEffect :=
  let newIndex := getNewIndex notes.data props.toMovePayload
  { item := { props.item with index := newIndex, laneId := props.targetLaneId }
    dispatched :=
      [{ type := some DRAG_NOTE
         payload := .drag newIndex props.targetLaneId props.sourceId
         meta := none
         error := none }] }

/-! ## Metadata objects as mutable objects -/

/-- The object `{}`. -/
def emptyMeta : Meta :=
  { table := none, isOptimistic := none, synced := none }

/-- The call `Object.assign(target, source)` on metadata objects held in a heap and
named by their position: the object at `target` receives the keys of the object at
`source`; an `undefined` source is skipped. Only the object at `target` is written. -/
def heapAssign (heap : List Meta) (target : Nat) (source : Option Nat) : List Meta :=
  match source with
  | none => heap
  | some s =>
    match heap[target]?, heap[s]? with
    | some t, some src => heap.set target (assignMeta t (some src))
    | _, _ => heap

/-- The expression `Object.assign({}, baseMeta, meta)` of the three action creators,
on the heap: a new object `{}` is allocated, then receives the keys of the object at
`base` and of the supplied one. The result is the new object's position and the heap
after the call. -/
def assignFresh (heap : List Meta) (base : Nat) (supplied : Option Nat) : Nat × List Meta :=
  let target := heap.length
  let heap1 := heap ++ [emptyMeta]
  let heap2 := heapAssign heap1 target (some base)
  let heap3 := heapAssign heap2 target supplied
  (target, heap3)

/-! ## More predicates and sample data -/

/-- The notes of a list that are in the target lane and are not the source. -/
def targetLaneOthers (notes : List Note) (payload : MovePayload) : List Note :=
  notes.filter fun n =>
    decide (n.id ≠ payload.sourceId) && decide (n.laneId = payload.targetLaneId)

/-- Any two notes of lane `lane` with different ids have different indices. -/
def DistinctInLane (lane : String) (data : List Note) : Prop :=
  ∀ a ∈ data, ∀ b ∈ data, a.laneId = lane → b.laneId = lane → a.id ≠ b.id →
    a.index ≠ b.index

/-- The indices of the notes of lane `lane`, in the order of the list. -/
def laneIndices (lane : String) (data : List Note) : List ℚ :=
  (data.filter fun n => decide (n.laneId = lane)).map Note.index

/-- A lane with the notes `a`, `b`, `c` at the indices 1, 2, 3. -/
def laneABC : List Note :=
  [ { id := "note-a", title := "a", laneId := "lane-1", userId := "user-1", index := 1 },
    { id := "note-b", title := "b", laneId := "lane-1", userId := "user-1", index := 2 },
    { id := "note-c", title := "c", laneId := "lane-1", userId := "user-1", index := 3 } ]

/-- Dragging `a` (index 1) to the target index 3, in the same lane. -/
def dragAToThree : MovePayload :=
  { sourceId := "note-a", sourceIndex := 1, sourceLaneId := "lane-1",
    targetLaneId := "lane-1", targetIndex := 3 }

/-- Dragging `c` (index 3) to the target index 1, in the same lane. -/
def dragCToOne : MovePayload :=
  { sourceId := "note-c", sourceIndex := 3, sourceLaneId := "lane-1",
    targetLaneId := "lane-1", targetIndex := 1 }

/-- A board with two notes in `lane-1` and one in `lane-2`. -/
def strayNotes : List Note :=
  [ { id := "note-s", title := "s", laneId := "lane-1", userId := "user-1", index := 5 },
    { id := "note-q", title := "q", laneId := "lane-1", userId := "user-1", index := 1 },
    { id := "note-u", title := "u", laneId := "lane-2", userId := "user-1", index := 2 } ]

/-- A lane with two notes at the same index. -/
def tiedNotes : List Note :=
  [ { id := "note-a", title := "a", laneId := "lane-1", userId := "user-1", index := 1 },
    { id := "note-b", title := "b", laneId := "lane-1", userId := "user-1", index := 1 } ]

/-- Dragging `note-a` onto `note-b`, which has the same index, in the same lane. -/
def tiedMove : MovePayload :=
  { sourceId := "note-a", sourceIndex := 1, sourceLaneId := "lane-1",
    targetLaneId := "lane-1", targetIndex := 1 }

/-- An UPDATE_NOTE action with no `meta` key. -/
def bareUpdate : Action :=
  { type := some UPDATE_NOTE, payload := .note noteAEcho, meta := none, error := none }

/-- The props of dragging `a` to the target index 3 in `laneABC`. -/
def dragAProps : DragProps :=
  { toMovePayload := dragAToThree
    item := { id := "note-a", index := 1, laneId := "lane-1", sourceId := none } }

/-- What the DRAG_NOTE case of `reducer` maps over `data` (lines 74-76). -/
def dragOne (index : ℚ) (laneId sourceId : String) (note : Note) : Note :=
  if note.id = sourceId then dragged index laneId note else note

/-! ## The loop of `getNewIndex` -/

theorem scanNote_eq_none (payload : MovePayload) (x : ℚ) (acc : Option ℚ) (n : Note) :
    scanNote payload x acc n = none ↔ acc = none ∧ ¬ Candidate payload x n := by
  unfold scanNote Candidate
  by_cases hskip : n.id = payload.sourceId ∨ n.laneId ≠ payload.sourceLaneId
  · rw [if_pos hskip]
    constructor
    · intro h
      refine ⟨h, ?_⟩
      rintro ⟨h1, h2, -⟩
      rcases hskip with h | h
      · exact h1 h
      · exact h h2
    · exact fun h => h.1
  · rw [if_neg hskip]
    push_neg at hskip
    cases acc with
    | none =>
      by_cases hgt : x * n.index > x * payload.targetIndex
      · simp [belowMin, hgt, hskip.1, hskip.2]
      · simp [belowMin, hgt]
    | some a =>
      by_cases hc : x * n.index > x * payload.targetIndex ∧ belowMin x n.index (some a) = true
      · simp [hc]
      · simp [hc]

theorem scanNote_eq_some (payload : MovePayload) (x : ℚ) (acc : Option ℚ) (n : Note) (m : ℚ)
    (h : scanNote payload x acc n = some m) :
    (acc = some m ∨ (Candidate payload x n ∧ n.index = m))
      ∧ (∀ a, acc = some a → x * m ≤ x * a)
      ∧ (Candidate payload x n → x * m ≤ x * n.index) := by
  unfold scanNote at h
  unfold Candidate
  by_cases hskip : n.id = payload.sourceId ∨ n.laneId ≠ payload.sourceLaneId
  · rw [if_pos hskip] at h
    refine ⟨Or.inl h, ?_, ?_⟩
    · intro a ha
      rw [h] at ha
      cases ha
      exact le_refl _
    · rintro ⟨h1, h2, -⟩
      rcases hskip with hs | hs
      · exact absurd hs h1
      · exact absurd h2 hs
  · rw [if_neg hskip] at h
    push_neg at hskip
    by_cases hc : x * n.index > x * payload.targetIndex ∧ belowMin x n.index acc = true
    · rw [if_pos hc] at h
      cases h
      refine ⟨Or.inr ⟨⟨hskip.1, hskip.2, hc.1⟩, rfl⟩, ?_, fun _ => le_refl _⟩
      intro a ha
      subst ha
      have := hc.2
      simp only [belowMin, decide_eq_true_eq] at this
      exact le_of_lt this
    · rw [if_neg hc] at h
      refine ⟨Or.inl h, ?_, ?_⟩
      · intro a ha
        rw [h] at ha
        cases ha
        exact le_refl _
      · rintro ⟨-, -, h3⟩
        subst h
        have hb : ¬ belowMin x n.index (some m) = true := fun hb => hc ⟨h3, hb⟩
        simp only [belowMin, decide_eq_true_eq, not_lt] at hb
        exact hb

theorem scan_eq_none (payload : MovePayload) (x : ℚ) (notes : List Note) (acc : Option ℚ) :
    notes.foldl (scanNote payload x) acc = none
      ↔ acc = none ∧ ∀ n ∈ notes, ¬ Candidate payload x n := by
  induction notes generalizing acc with
  | nil => simp
  | cons n rest ih =>
    rw [List.foldl_cons, ih, scanNote_eq_none]
    simp only [List.mem_cons, forall_eq_or_imp]
    tauto

theorem scan_eq_some (payload : MovePayload) (x : ℚ) (notes : List Note) (acc : Option ℚ)
    (m : ℚ) (h : notes.foldl (scanNote payload x) acc = some m) :
    (acc = some m ∨ ∃ n ∈ notes, Candidate payload x n ∧ n.index = m)
      ∧ (∀ a, acc = some a → x * m ≤ x * a)
      ∧ (∀ n ∈ notes, Candidate payload x n → x * m ≤ x * n.index) := by
  induction notes generalizing acc with
  | nil =>
    simp only [List.foldl_nil] at h
    subst h
    refine ⟨Or.inl rfl, ?_, ?_⟩
    · intro a ha
      cases ha
      exact le_refl _
    · intro n hn
      cases hn
  | cons n rest ih =>
    rw [List.foldl_cons] at h
    obtain ⟨h1, h2, h3⟩ := ih _ h
    refine ⟨?_, ?_, ?_⟩
    · rcases h1 with h1 | ⟨k, hk, hc, hi⟩
      · rcases (scanNote_eq_some payload x acc n m h1).1 with h4 | ⟨hc, hi⟩
        · exact Or.inl h4
        · exact Or.inr ⟨n, List.mem_cons_self _ _, hc, hi⟩
      · exact Or.inr ⟨k, List.mem_cons_of_mem _ hk, hc, hi⟩
    · intro a ha
      cases hs : scanNote payload x acc n with
      | none =>
        rw [scanNote_eq_none] at hs
        rw [hs.1] at ha
        cases ha
      | some b =>
        exact le_trans (h2 b hs) ((scanNote_eq_some payload x acc n b hs).2.1 a ha)
    · intro k hk hc
      rcases List.mem_cons.1 hk with rfl | hk
      · cases hs : scanNote payload x acc k with
        | none =>
          rw [scanNote_eq_none] at hs
          exact absurd hc hs.2
        | some b =>
          exact le_trans (h2 b hs) ((scanNote_eq_some payload x acc k b hs).2.2 hc)
      · exact h3 k hk hc

/-! ## The direction -/

theorem xfactor_eq (payload : MovePayload) : xfactor payload = 1 ∨ xfactor payload = -1 := by
  unfold xfactor
  split
  · exact Or.inr rfl
  · exact Or.inl rfl

theorem xfactor_mul_self (payload : MovePayload) : xfactor payload * xfactor payload = 1 := by
  rcases xfactor_eq payload with h | h <;> rw [h] <;> norm_num

theorem specXfactor_eq_xfactor (payload : MovePayload) : specXfactor payload = xfactor payload :=
  rfl

/-- Scaling by the direction is injective. -/
theorem xfactor_cancel (payload : MovePayload) (a b : ℚ)
    (h : xfactor payload * a = xfactor payload * b) : a = b := by
  rcases xfactor_eq payload with hx | hx <;> rw [hx] at h <;> linarith

/-! ## The reference algorithm -/

theorem specNearest_eq_none (x : ℚ) (l : List ℚ) : specNearest x l = none ↔ l = [] := by
  cases l with
  | nil => simp [specNearest]
  | cons i rest =>
    simp only [specNearest, reduceCtorEq, iff_false]
    cases specNearest x rest with
    | none => simp
    | some m => by_cases h : x * i ≤ x * m <;> simp [h]

theorem specNearest_eq_some (x : ℚ) (l : List ℚ) (m : ℚ) (h : specNearest x l = some m) :
    m ∈ l ∧ ∀ k ∈ l, x * m ≤ x * k := by
  induction l generalizing m with
  | nil => simp [specNearest] at h
  | cons i rest ih =>
    cases hr : specNearest x rest with
    | none =>
      simp only [specNearest, hr, Option.some.injEq] at h
      subst h
      rw [specNearest_eq_none] at hr
      subst hr
      simp
    | some b =>
      obtain ⟨hb, hmin⟩ := ih b hr
      by_cases hle : x * i ≤ x * b
      · simp only [specNearest, hr, if_pos hle, Option.some.injEq] at h
        subst h
        refine ⟨List.mem_cons_self _ _, ?_⟩
        intro k hk
        rcases List.mem_cons.1 hk with rfl | hk
        · exact le_refl _
        · exact le_trans hle (hmin k hk)
      · simp only [specNearest, hr, if_neg hle, Option.some.injEq] at h
        subst h
        refine ⟨List.mem_cons_of_mem _ hb, ?_⟩
        intro k hk
        rcases List.mem_cons.1 hk with rfl | hk
        · exact le_of_lt (not_le.1 hle)
        · exact hmin k hk

theorem mem_specNeighbours (notes : List Note) (payload : MovePayload) (n : Note) :
    n ∈ specNeighbours notes payload ↔
      n ∈ notes ∧ n.id ≠ payload.sourceId ∧ n.laneId = payload.targetLaneId
        ∧ xfactor payload * n.index > xfactor payload * payload.targetIndex := by
  simp [specNeighbours, specXfactor_eq_xfactor, and_assoc]

/-! ## `getNewIndex` on every move -/

/-- The result lies strictly beyond `targetIndex` in the direction of the move. -/
theorem getNewIndex_beyond_target (notes : List Note) (payload : MovePayload) :
    xfactor payload * getNewIndex notes payload > xfactor payload * payload.targetIndex := by
  have hx := xfactor_mul_self payload
  cases hs : notes.foldl (scanNote payload (xfactor payload)) none with
  | none =>
    simp only [getNewIndex, hs]
    have : xfactor payload * (payload.targetIndex + xfactor payload)
        = xfactor payload * payload.targetIndex + 1 := by rw [mul_add, hx]
    rw [this]
    linarith
  | some m =>
    simp only [getNewIndex, hs]
    obtain ⟨h1, -, -⟩ := scan_eq_some payload _ notes none m hs
    rcases h1 with h1 | ⟨n, -, hc, hi⟩
    · cases h1
    · have hgt := hc.2.2
      rw [hi] at hgt
      have : xfactor payload * ((payload.targetIndex + m) / 2)
          = (xfactor payload * payload.targetIndex + xfactor payload * m) / 2 := by ring
      rw [this]
      linarith

/-- The result lies strictly before every note the loop considers: every note
other than the source, in the lane `sourceLaneId`, beyond `targetIndex`. -/
theorem getNewIndex_before_scanned (notes : List Note) (payload : MovePayload) (n : Note)
    (hn : n ∈ notes) (hc : Candidate payload (xfactor payload) n) :
    xfactor payload * getNewIndex notes payload < xfactor payload * n.index := by
  cases hs : notes.foldl (scanNote payload (xfactor payload)) none with
  | none =>
    rw [scan_eq_none] at hs
    exact absurd hc (hs.2 n hn)
  | some m =>
    simp only [getNewIndex, hs]
    obtain ⟨h1, -, h3⟩ := scan_eq_some payload _ notes none m hs
    rcases h1 with h1 | ⟨k, -, hk, hi⟩
    · cases h1
    · have hgt := hk.2.2
      rw [hi] at hgt
      have hle := h3 n hn hc
      have : xfactor payload * ((payload.targetIndex + m) / 2)
          = (xfactor payload * payload.targetIndex + xfactor payload * m) / 2 := by ring
      rw [this]
      linarith

/-- On a move within one lane `getNewIndex` is the reference algorithm. -/
theorem getNewIndex_eq_spec_of_same_lane (notes : List Note) (payload : MovePayload)
    (hlane : payload.targetLaneId = payload.sourceLaneId) :
    getNewIndex notes payload = specNewIndex notes payload := by
  have hmem : ∀ n, n ∈ specNeighbours notes payload ↔
      n ∈ notes ∧ Candidate payload (xfactor payload) n := by
    intro n
    rw [mem_specNeighbours, hlane]
    rfl
  cases hs : notes.foldl (scanNote payload (xfactor payload)) none with
  | none =>
    simp only [getNewIndex, specNewIndex, specXfactor_eq_xfactor, hs]
    rw [scan_eq_none] at hs
    have hnil : specNeighbours notes payload = [] := by
      apply List.eq_nil_iff_forall_not_mem.2
      intro n hn
      exact hs.2 n ((hmem n).1 hn).1 ((hmem n).1 hn).2
    rw [hnil]
    simp [specNearest]
  | some m =>
    obtain ⟨h1, -, h3⟩ := scan_eq_some payload _ notes none m hs
    rcases h1 with h1 | ⟨k, hk, hck, hi⟩
    · cases h1
    · simp only [getNewIndex, specNewIndex, specXfactor_eq_xfactor, hs]
      cases hq : specNearest (xfactor payload) ((specNeighbours notes payload).map Note.index) with
      | none =>
        rw [specNearest_eq_none, List.map_eq_nil_iff] at hq
        have : k ∈ specNeighbours notes payload := (hmem k).2 ⟨hk, hck⟩
        rw [hq] at this
        cases this
      | some b =>
        simp only
        obtain ⟨hb, hmin⟩ := specNearest_eq_some _ _ b hq
        obtain ⟨j, hj, hjb⟩ := List.mem_map.1 hb
        have h4 : xfactor payload * m ≤ xfactor payload * b := by
          rw [← hjb]
          exact h3 j ((hmem j).1 hj).1 ((hmem j).1 hj).2
        have h5 : xfactor payload * b ≤ xfactor payload * m := by
          rw [← hi]
          exact hmin k.index (List.mem_map.2 ⟨k, (hmem k).2 ⟨hk, hck⟩, rfl⟩)
        rw [xfactor_cancel payload m b (le_antisymm h4 h5)]

/-! ## The helpers on ids -/

/-- An ADD whose id is new appends the note. -/
theorem addImmutable_of_not_mem (doc : Note) (data : List Note) (h : doc.id ∉ ids data) :
    addImmutable doc data = data ++ [doc] := by
  induction data with
  | nil => rfl
  | cons n rest ih =>
    simp only [ids, List.map_cons, List.mem_cons, not_or] at h
    have hne : ¬ n.id = doc.id := fun e => h.1 e.symm
    simp only [addImmutable, if_neg hne, List.cons_append]
    rw [ih h.2]

/-- An ADD whose id is already there leaves the ids as they are, in number and order. -/
theorem ids_addImmutable_of_mem (doc : Note) (data : List Note) (h : doc.id ∈ ids data) :
    ids (addImmutable doc data) = ids data := by
  induction data with
  | nil => simp [ids] at h
  | cons n rest ih =>
    by_cases hn : n.id = doc.id
    · simp [addImmutable, hn, ids]
    · simp only [ids, List.map_cons, List.mem_cons] at h
      have hrest : doc.id ∈ ids rest := by
        rcases h with h | h
        · exact absurd h.symm hn
        · exact h
      simp only [addImmutable, if_neg hn]
      simp only [ids, List.map_cons] at ih ⊢
      rw [ih hrest]

theorem mem_addImmutable (doc : Note) (data : List Note) : doc ∈ addImmutable doc data := by
  induction data with
  | nil => simp [addImmutable]
  | cons n rest ih =>
    by_cases hn : n.id = doc.id
    · simp [addImmutable, hn]
    · simp only [addImmutable, if_neg hn]
      exact List.mem_cons_of_mem _ ih

theorem nodup_ids_addImmutable (doc : Note) (data : List Note) (h : (ids data).Nodup) :
    (ids (addImmutable doc data)).Nodup := by
  by_cases hm : doc.id ∈ ids data
  · rw [ids_addImmutable_of_mem doc data hm]
    exact h
  · rw [addImmutable_of_not_mem doc data hm]
    simp only [ids, List.map_append, List.map_cons, List.map_nil]
    exact List.Nodup.append h (List.nodup_singleton _) (List.disjoint_singleton.2 hm)

theorem ids_updateImmutable (doc : Note) (data : List Note) :
    ids (updateImmutable doc data) = ids data := by
  induction data with
  | nil => rfl
  | cons n rest ih =>
    by_cases h : n.id = doc.id
    · simp [updateImmutable, h, ids]
    · simp only [updateImmutable, if_neg h]
      simp only [ids, List.map_cons] at ih ⊢
      rw [ih]

theorem deleteImmutable_sublist (i : String) (data : List Note) :
    (deleteImmutable i data).Sublist data := by
  induction data with
  | nil => exact List.Sublist.refl _
  | cons n rest ih =>
    by_cases h : n.id = i
    · simp only [deleteImmutable, if_pos h]
      exact List.sublist_cons_self _ _
    · simp only [deleteImmutable, if_neg h]
      exact ih.cons₂ _

theorem updateImmutable_of_not_mem (doc : Note) (data : List Note)
    (h : doc.id ∉ ids data) : updateImmutable doc data = data := by
  induction data with
  | nil => rfl
  | cons n rest ih =>
    simp only [ids, List.map_cons, List.mem_cons, not_or] at h
    have hne : ¬ n.id = doc.id := fun e => h.1 e.symm
    simp only [updateImmutable, if_neg hne]
    rw [ih h.2]

theorem deleteImmutable_of_not_mem (i : String) (data : List Note)
    (h : i ∉ ids data) : deleteImmutable i data = data := by
  induction data with
  | nil => rfl
  | cons n rest ih =>
    simp only [ids, List.map_cons, List.mem_cons, not_or] at h
    have hne : ¬ n.id = i := fun e => h.1 e.symm
    simp only [deleteImmutable, if_neg hne]
    rw [ih h.2]

theorem nodup_ids_deleteImmutable (i : String) (data : List Note) (h : (ids data).Nodup) :
    (ids (deleteImmutable i data)).Nodup :=
  List.Nodup.sublist ((deleteImmutable_sublist i data).map Note.id) h

/-! ## The cases of `reducer` -/

theorem reducer_add (state : State) (action : Action) (doc : Note)
    (ht : action.type = some ADD_NOTE) (hp : action.payload = .note doc) :
    reducer state action = some
      { synced := metaSynced action, error := state.error,
        data := addImmutable doc state.data } := by
  simp only [reducer, ht, hp, if_true]

theorem reducer_update (state : State) (action : Action) (doc : Note)
    (ht : action.type = some UPDATE_NOTE) (hp : action.payload = .note doc) :
    reducer state action = some
      { synced := metaSynced action, error := state.error,
        data := updateImmutable doc state.data } := by
  simp [reducer, ht, hp, UPDATE_NOTE, ADD_NOTE]

theorem reducer_delete_id (state : State) (action : Action) (i : String)
    (ht : action.type = some DELETE_NOTE) (hp : action.payload = .id i) :
    reducer state action = some
      { synced := metaSynced action, error := state.error,
        data := deleteImmutable i state.data } := by
  simp [reducer, ht, hp, UPDATE_NOTE, ADD_NOTE, DELETE_NOTE]

theorem reducer_delete_note (state : State) (action : Action) (doc : Note)
    (ht : action.type = some DELETE_NOTE) (hp : action.payload = .note doc) :
    reducer state action = some
      { synced := metaSynced action, error := state.error,
        data := deleteImmutable doc.id state.data } := by
  simp [reducer, ht, hp, UPDATE_NOTE, ADD_NOTE, DELETE_NOTE]

theorem reducer_clear (state : State) (action : Action)
    (ht : action.type = some CLEAR_NOTES) : reducer state action = some initialState := by
  simp [reducer, ht, UPDATE_NOTE, ADD_NOTE, DELETE_NOTE, CLEAR_NOTES]

theorem reducer_drag (state : State) (action : Action) (index : ℚ) (laneId sourceId : String)
    (ht : action.type = some DRAG_NOTE) (hp : action.payload = .drag index laneId sourceId) :
    reducer state action = some
      { synced := state.synced, error := state.error,
        data := state.data.map fun note =>
          if note.id = sourceId then dragged index laneId note else note } := by
  simp [reducer, ht, hp, UPDATE_NOTE, ADD_NOTE, DELETE_NOTE, CLEAR_NOTES, DRAG_NOTE, dragged]

theorem reducer_success (state : State) (action : Action)
    (ht : action.type = some ADD_NOTE_SUCCESS ∨ action.type = some UPDATE_NOTE_SUCCESS
      ∨ action.type = some DELETE_NOTE_SUCCESS) :
    reducer state action = some { synced := true, error := none, data := state.data } := by
  rcases ht with ht | ht | ht <;>
    simp [reducer, ht, UPDATE_NOTE, ADD_NOTE, DELETE_NOTE, CLEAR_NOTES, DRAG_NOTE,
      ADD_NOTE_SUCCESS, UPDATE_NOTE_SUCCESS, DELETE_NOTE_SUCCESS]

theorem reducer_error (state : State) (action : Action)
    (ht : action.type = some ADD_NOTE_ERROR ∨ action.type = some UPDATE_NOTE_ERROR
      ∨ action.type = some DELETE_NOTE_ERROR) :
    reducer state action = some
      { synced := true, error := some (errorOrDefault action), data := state.data } := by
  rcases ht with ht | ht | ht <;>
    simp [reducer, ht, UPDATE_NOTE, ADD_NOTE, DELETE_NOTE, CLEAR_NOTES, DRAG_NOTE,
      ADD_NOTE_SUCCESS, UPDATE_NOTE_SUCCESS, DELETE_NOTE_SUCCESS,
      ADD_NOTE_ERROR, UPDATE_NOTE_ERROR, DELETE_NOTE_ERROR]

theorem reducer_default (state : State) (action : Action)
    (ht : action.type ∉ recognizedTypes) : reducer state action = some state := by
  simp only [recognizedTypes, List.mem_cons, List.mem_singleton, not_or, List.not_mem_nil,
    or_false] at ht
  obtain ⟨h1, h2, h3, h4, h5, h6, h7, h8, h9, h10, h11⟩ := ht
  simp [reducer, h1, h2, h3, h4, h5, h6, h7, h8, h9, h10, h11]

/-- One ADD, UPDATE or DELETE keeps the ids distinct. -/
theorem reducer_crud_nodup (state : State) (action : Action) (hcrud : CrudAction action)
    (hnodup : (ids state.data).Nodup) :
    ∃ next, reducer state action = some next ∧ (ids next.data).Nodup := by
  rcases hcrud with ⟨ht | ht, doc, hp⟩ | ⟨ht, ⟨doc, hp⟩ | ⟨i, hp⟩⟩
  · exact ⟨_, reducer_add state action doc ht hp, nodup_ids_addImmutable _ _ hnodup⟩
  · refine ⟨_, reducer_update state action doc ht hp, ?_⟩
    simpa only [ids_updateImmutable] using hnodup
  · refine ⟨_, reducer_delete_note state action doc ht hp, ?_⟩
    exact nodup_ids_deleteImmutable _ _ hnodup
  · refine ⟨_, reducer_delete_id state action i ht hp, ?_⟩
    exact nodup_ids_deleteImmutable _ _ hnodup

theorem dispatchAll_crud_nodup (actions : List Action) (state : State)
    (hcrud : ∀ a ∈ actions, CrudAction a) (hnodup : (ids state.data).Nodup) :
    ∃ final, dispatchAll state actions = some final ∧ (ids final.data).Nodup := by
  induction actions generalizing state with
  | nil => exact ⟨state, rfl, hnodup⟩
  | cons a rest ih =>
    obtain ⟨next, hnext, hnd⟩ :=
      reducer_crud_nodup state a (hcrud a (List.mem_cons_self _ _)) hnodup
    obtain ⟨final, hfinal, hfnd⟩ :=
      ih next (fun b hb => hcrud b (List.mem_cons_of_mem _ hb)) hnd
    exact ⟨final, by simp only [dispatchAll, hnext, hfinal], hfnd⟩

/-! ## Reorder index: the claims -/

/-- C1: `getNewIndex` is claimed to equal the reference algorithm on every move. On the
cross-lane move of `note-a` onto `note-c` the reference algorithm finds the neighbour
`note-b` of the target lane and returns `(1 + 1/2) / 2 = 3/4`, while the code, which
scans the lane `sourceLaneId` (line 182), finds no neighbour and returns `1 - 1 = 0`. -/
theorem getNewIndex_cross_lane_ne_spec :
    specNeighbours sampleNotes crossLaneMove = [noteB]
      ∧ specNewIndex sampleNotes crossLaneMove = 3 / 4
      ∧ getNewIndex sampleNotes crossLaneMove = 0
      ∧ getNewIndex sampleNotes crossLaneMove ≠ specNewIndex sampleNotes crossLaneMove := by
  have hN : specNeighbours sampleNotes crossLaneMove = [noteB] := by
    simp [specNeighbours, specXfactor, sampleNotes, crossLaneMove, noteA, noteB, noteC,
      List.filter]
    norm_num
  have hspec : specNewIndex sampleNotes crossLaneMove = 3 / 4 := by
    simp [specNewIndex, specNeighbours, specXfactor, sampleNotes, crossLaneMove, noteA, noteB,
      noteC, List.filter]
    norm_num [specNearest]
  have hcode : getNewIndex sampleNotes crossLaneMove = 0 := by
    simp [getNewIndex, sampleNotes, crossLaneMove, noteA, noteB, noteC, xfactor, scanNote,
      belowMin]
  refine ⟨hN, hspec, hcode, ?_⟩
  rw [hspec, hcode]
  norm_num

/-- C2: the index is claimed to lie strictly before every other note of the target lane
beyond `targetIndex`. On the cross-lane move of `note-s` onto `note-u` (index 2, direction
`-1`) the note `note-t` of the target lane lies beyond the target at index 1, and the code
returns exactly 1: the mean of the target index 2 and the index 0 of `note-r`, a note of
the source lane. -/
theorem getNewIndex_cross_lane_hits_neighbour :
    xfactor twoLaneMove = -1
      ∧ (∃ n ∈ twoLaneNotes, n.id = "note-t" ∧ n.id ≠ twoLaneMove.sourceId
          ∧ n.laneId = twoLaneMove.targetLaneId
          ∧ xfactor twoLaneMove * n.index > xfactor twoLaneMove * twoLaneMove.targetIndex
          ∧ ¬ (xfactor twoLaneMove * getNewIndex twoLaneNotes twoLaneMove
                < xfactor twoLaneMove * n.index)
          ∧ getNewIndex twoLaneNotes twoLaneMove = n.index)
      ∧ getNewIndex twoLaneNotes twoLaneMove = 1 := by
  have hx : xfactor twoLaneMove = -1 := by simp [xfactor, twoLaneMove]
  have hr : getNewIndex twoLaneNotes twoLaneMove = 1 := by
    simp [getNewIndex, twoLaneNotes, twoLaneMove, xfactor, scanNote, belowMin]
  refine ⟨hx, ⟨⟨"note-t", "t", "lane-2", "user-1", 1⟩, ?_, rfl, ?_, ?_, ?_, ?_, ?_⟩, hr⟩
  · simp [twoLaneNotes]
  · simp [twoLaneMove]
  · simp [twoLaneMove]
  · rw [hx]
    norm_num [twoLaneMove]
  · rw [hr]
    exact lt_irrefl _
  · exact hr

/-! ## Reducer: the claims -/

/-- C3: starting from the initial state, every finite sequence of ADD_NOTE, UPDATE_NOTE
and DELETE_NOTE actions runs through `reducer` to a state whose notes have pairwise
distinct ids; and an ADD_NOTE whose payload id is already in `data` returns a state with
the same ids as before, in number and order, so it leaves no second entry with that
id. -/
theorem dispatchAll_keeps_ids_distinct (actions : List Action)
    (hcrud : ∀ a ∈ actions, CrudAction a) :
    (∃ final, dispatchAll initialState actions = some final ∧ (ids final.data).Nodup)
      ∧ ∀ (state : State) (action : Action) (doc : Note),
          action.type = some ADD_NOTE → action.payload = .note doc →
          doc.id ∈ ids state.data →
          ∃ next, reducer state action = some next ∧ ids next.data = ids state.data
            ∧ doc ∈ next.data :=
  ⟨dispatchAll_crud_nodup actions initialState hcrud (by simp [ids, initialState]),
    fun state action doc ht hp hmem =>
      ⟨_, reducer_add state action doc ht hp, ids_addImmutable_of_mem doc state.data hmem,
        mem_addImmutable doc state.data⟩⟩

theorem dispatchAll_keeps_ids_distinct_witness :
    (∀ a ∈ [addNote (.note noteA) none, addNote (.note noteAEcho) (some syncedMeta),
        addNote (.note noteB) none, deleteNote "note-b" none], CrudAction a)
      ∧ (∃ final, dispatchAll initialState
          [addNote (.note noteA) none, addNote (.note noteAEcho) (some syncedMeta),
            addNote (.note noteB) none, deleteNote "note-b" none] = some final
        ∧ (ids final.data).Nodup)
      ∧ dispatchAll initialState
          [addNote (.note noteA) none, addNote (.note noteAEcho) (some syncedMeta)]
        = some { synced := true, error := none, data := [noteAEcho] } := by
  have hcrud : ∀ a ∈ [addNote (.note noteA) none,
      addNote (.note noteAEcho) (some syncedMeta),
      addNote (.note noteB) none, deleteNote "note-b" none], CrudAction a := by
    simp [CrudAction, addNote, updateNote, deleteNote]
  refine ⟨hcrud, (dispatchAll_keeps_ids_distinct _ hcrud).1, ?_⟩
  simp [dispatchAll, reducer, addNote, initialState, addImmutable, metaSynced, assignMeta,
    baseMeta, syncedMeta, noteA, noteAEcho]

/-- C4: an UPDATE_NOTE (carrying a note record) or DELETE_NOTE (carrying `{id}` or a
note record) whose payload id `i` is the id of no note of `state.data` makes `reducer`
return a state, with the same notes in the same order and so the same length. -/
theorem reducer_unknown_id_keeps_data (state : State) (action : Action) (i : String)
    (ht : (action.type = some UPDATE_NOTE ∧ ∃ doc, action.payload = .note doc ∧ doc.id = i)
      ∨ (action.type = some DELETE_NOTE
        ∧ (action.payload = .id i ∨ ∃ doc, action.payload = .note doc ∧ doc.id = i)))
    (habsent : i ∉ ids state.data) :
    ∃ next, reducer state action = some next ∧ next.data = state.data
      ∧ next.data.length = state.data.length := by
  rcases ht with ⟨ht, doc, hp, rfl⟩ | ⟨ht, hp | ⟨doc, hp, rfl⟩⟩
  · refine ⟨_, reducer_update state action doc ht hp, ?_, ?_⟩ <;>
      simp only [updateImmutable_of_not_mem doc state.data habsent]
  · refine ⟨_, reducer_delete_id state action i ht hp, ?_, ?_⟩ <;>
      simp only [deleteImmutable_of_not_mem i state.data habsent]
  · refine ⟨_, reducer_delete_note state action doc ht hp, ?_, ?_⟩ <;>
      simp only [deleteImmutable_of_not_mem doc.id state.data habsent]

theorem reducer_unknown_id_keeps_data_witness :
    "note-z" ∉ ids sampleState.data
      ∧ (∃ next, reducer sampleState (deleteNote "note-z" none) = some next
          ∧ next.data = sampleState.data ∧ next.data.length = sampleState.data.length)
      ∧ ∃ next, reducer sampleState
            (updateNote (.note { noteA with id := "note-z" }) (some syncedMeta)) = some next
          ∧ next.data = sampleState.data ∧ next.data.length = sampleState.data.length := by
  have h : "note-z" ∉ ids sampleState.data := by
    simp [ids, sampleState, sampleNotes, noteA, noteB, noteC]
  exact ⟨h,
    reducer_unknown_id_keeps_data sampleState (deleteNote "note-z" none) "note-z"
      (Or.inr ⟨rfl, Or.inl rfl⟩) h,
    reducer_unknown_id_keeps_data sampleState
      (updateNote (.note { noteA with id := "note-z" }) (some syncedMeta)) "note-z"
      (Or.inl ⟨rfl, _, rfl, rfl⟩) h⟩

/-- C5: for every prior state, `reducer` applied to a CLEAR_NOTES action returns the
initial state, which is `{synced: false, error: null, data: []}`. -/
theorem reducer_clear_notes (state : State) (action : Action)
    (ht : action.type = some CLEAR_NOTES) :
    reducer state action = some initialState
      ∧ initialState = { synced := false, error := none, data := [] } :=
  ⟨reducer_clear state action ht, rfl⟩

theorem reducer_clear_notes_witness :
    reducer sampleState
        { type := some CLEAR_NOTES, payload := .undefined, meta := none, error := none }
      = some initialState
      ∧ initialState = { synced := false, error := none, data := [] } :=
  reducer_clear_notes sampleState _ rfl

/-- C6: for an event with at least one of `old_val`, `new_val` present, the change-feed
handler dispatches exactly one action, whose `meta.synced` is `true`: ADD_NOTE with
payload `new_val` when `old_val` is absent; DELETE_NOTE with payload `{id: old_val.id}`
when `old_val` is present and `new_val` absent; UPDATE_NOTE with payload `new_val` when
both are present. -/
theorem onFeedEvent_dispatches_one (data : FeedEvent)
    (hpresent : data.old_val.isSome = true ∨ data.new_val.isSome = true) :
    ∃ action, onFeedEvent data = [action]
      ∧ action.meta.bind Meta.synced = some true
      ∧ (data.old_val = none →
          ∃ new, data.new_val = some new
            ∧ action.type = some ADD_NOTE ∧ action.payload = .note new)
      ∧ (∀ old, data.old_val = some old → data.new_val = none →
          action.type = some DELETE_NOTE ∧ action.payload = .id old.id)
      ∧ (∀ old new, data.old_val = some old → data.new_val = some new →
          action.type = some UPDATE_NOTE ∧ action.payload = .note new) := by
  obtain ⟨old_val, new_val⟩ := data
  cases old_val with
  | none =>
    cases new_val with
    | none => simp at hpresent
    | some new =>
      exact ⟨_, rfl, rfl, fun _ => ⟨new, rfl, rfl, rfl⟩, fun _ h => (by cases h),
        fun _ _ h => (by cases h)⟩
  | some old =>
    cases new_val with
    | none =>
      refine ⟨_, rfl, rfl, fun h => (by cases h), ?_, fun _ _ _ h => (by cases h)⟩
      intro o ho _
      cases ho
      exact ⟨rfl, rfl⟩
    | some new =>
      refine ⟨_, rfl, rfl, fun h => (by cases h), fun _ _ h => (by cases h), ?_⟩
      intro o n ho hn
      cases ho
      cases hn
      exact ⟨rfl, rfl⟩

theorem onFeedEvent_dispatches_one_witness :
    ((some noteA).isSome = true ∨ (some noteAEcho).isSome = true)
      ∧ ∃ action, onFeedEvent { old_val := some noteA, new_val := some noteAEcho } = [action]
        ∧ action.meta.bind Meta.synced = some true
        ∧ action.type = some UPDATE_NOTE ∧ action.payload = .note noteAEcho := by
  obtain ⟨action, h1, h2, -, -, h5⟩ :=
    onFeedEvent_dispatches_one { old_val := some noteA, new_val := some noteAEcho }
      (Or.inl rfl)
  exact ⟨Or.inl rfl, action, h1, h2, h5 noteA noteAEcho rfl rfl⟩

/-- C7: for every state and every DRAG_NOTE action with payload
`{sourceId, index, laneId}`, `reducer` returns a state with `synced` and `error`
unchanged and `data` of the same length, in which, position by position, a note whose
id is `sourceId` has its `index` and `laneId` replaced by the payload's and its other
fields kept, and every other note is unchanged; when no note has id `sourceId` the data
is unchanged. -/
theorem reducer_drag_note_frame (state : State) (action : Action) (index : ℚ)
    (laneId sourceId : String) (ht : action.type = some DRAG_NOTE)
    (hp : action.payload = .drag index laneId sourceId) :
    ∃ next, reducer state action = some next
      ∧ next.synced = state.synced ∧ next.error = state.error
      ∧ next.data.length = state.data.length
      ∧ List.Forall₂
          (fun old new =>
            (old.id = sourceId →
              new = { id := old.id, title := old.title, laneId := laneId,
                      userId := old.userId, index := index })
            ∧ (old.id ≠ sourceId → new = old))
          state.data next.data
      ∧ (sourceId ∉ ids state.data → next.data = state.data) := by
  refine ⟨_, reducer_drag state action index laneId sourceId ht hp, rfl, rfl, ?_, ?_, ?_⟩
  · simp
  · simp only
    generalize state.data = data
    induction data with
    | nil => exact List.Forall₂.nil
    | cons n rest ih =>
      rw [List.map_cons]
      refine List.Forall₂.cons ⟨?_, ?_⟩ ih
      · intro h
        rw [if_pos h]
        rfl
      · intro h
        rw [if_neg h]
  · intro habsent
    simp only
    generalize state.data = data at habsent
    induction data with
    | nil => rfl
    | cons n rest ih =>
      simp only [ids, List.map_cons, List.mem_cons, not_or] at habsent
      have hne : ¬ n.id = sourceId := fun e => habsent.1 e.symm
      rw [List.map_cons, if_neg hne, ih habsent.2]

theorem reducer_drag_note_frame_witness :
    ∃ next, reducer sampleState
        { type := some DRAG_NOTE, payload := .drag (3 / 4) "lane-2" "note-a", meta := none,
          error := none } = some next
      ∧ next.synced = sampleState.synced ∧ next.error = sampleState.error
      ∧ next.data.length = sampleState.data.length
      ∧ List.Forall₂
          (fun old new =>
            (old.id = "note-a" →
              new = { id := old.id, title := old.title, laneId := "lane-2",
                      userId := old.userId, index := 3 / 4 })
            ∧ (old.id ≠ "note-a" → new = old))
          sampleState.data next.data
      ∧ ("note-a" ∉ ids sampleState.data → next.data = sampleState.data) :=
  reducer_drag_note_frame sampleState _ (3 / 4) "lane-2" "note-a" rfl rfl

/-- C8: for every state and every action whose type is none of ADD_NOTE, UPDATE_NOTE,
DELETE_NOTE, CLEAR_NOTES, DRAG_NOTE and the add, update and delete _SUCCESS and _ERROR
types, an action with no type included, `reducer` returns the input state. -/
theorem reducer_unrecognized_identity (state : State) (action : Action)
    (ht : action.type ∉ recognizedTypes) : reducer state action = some state :=
  reducer_default state action ht

theorem reducer_unrecognized_identity_witness :
    (none ∉ recognizedTypes ∧ some DROP_NOTE_SUCCESS ∉ recognizedTypes)
      ∧ reducer sampleState
          { type := none, payload := .undefined, meta := none, error := none }
        = some sampleState
      ∧ reducer sampleState
          { type := some DROP_NOTE_SUCCESS, payload := .note noteA, meta := some syncedMeta,
            error := some "late" }
        = some sampleState := by
  have h1 : (none : Option String) ∉ recognizedTypes := by simp [recognizedTypes]
  have h2 : some DROP_NOTE_SUCCESS ∉ recognizedTypes := by
    simp [recognizedTypes, DROP_NOTE_SUCCESS, ADD_NOTE, UPDATE_NOTE, DELETE_NOTE, CLEAR_NOTES,
      DRAG_NOTE, ADD_NOTE_SUCCESS, UPDATE_NOTE_SUCCESS, DELETE_NOTE_SUCCESS, ADD_NOTE_ERROR,
      UPDATE_NOTE_ERROR, DELETE_NOTE_ERROR]
  exact ⟨⟨h1, h2⟩, reducer_unrecognized_identity sampleState _ h1,
    reducer_unrecognized_identity sampleState _ h2⟩

/-- C9: for every state and every ADD_NOTE_ERROR, UPDATE_NOTE_ERROR or DELETE_NOTE_ERROR
action, `reducer` returns a state with `synced = true` and `data` unchanged, whose `error`
is the action's error message when it carries one (a non-empty string) and the default
`'Error'` when it carries none (no `error`, or the empty string, which `||` passes
over). -/
theorem reducer_error_records (state : State) (action : Action)
    (ht : action.type = some ADD_NOTE_ERROR ∨ action.type = some UPDATE_NOTE_ERROR
      ∨ action.type = some DELETE_NOTE_ERROR) :
    ∃ next, reducer state action = some next
      ∧ next.synced = true ∧ next.data = state.data
      ∧ (∀ e, action.error = some e → e ≠ "" → next.error = some e)
      ∧ (action.error = none ∨ action.error = some "" → next.error = some "Error") := by
  refine ⟨_, reducer_error state action ht, rfl, rfl, ?_, ?_⟩
  · intro e he hne
    simp [errorOrDefault, he, hne]
  · rintro (he | he) <;> simp [errorOrDefault, he]

theorem reducer_error_records_witness :
    ∃ next, reducer sampleState
        { type := some UPDATE_NOTE_ERROR, payload := .undefined, meta := none,
          error := some "offline" } = some next
      ∧ next.synced = true ∧ next.data = sampleState.data
      ∧ (∀ e, some "offline" = some e → e ≠ "" → next.error = some e)
      ∧ ((some "offline" : Option String) = none ∨ some "offline" = some ""
          → next.error = some "Error") :=
  reducer_error_records sampleState
    { type := some UPDATE_NOTE_ERROR, payload := .undefined, meta := none,
      error := some "offline" } (Or.inr (Or.inl rfl))

/-- C10: for every state and every ADD_NOTE_SUCCESS, UPDATE_NOTE_SUCCESS or
DELETE_NOTE_SUCCESS action, `reducer` returns a state with `synced = true`,
`error = null` and `data` unchanged, whatever `synced` and `error` were. -/
theorem reducer_success_clears (state : State) (action : Action)
    (ht : action.type = some ADD_NOTE_SUCCESS ∨ action.type = some UPDATE_NOTE_SUCCESS
      ∨ action.type = some DELETE_NOTE_SUCCESS) :
    ∃ next, reducer state action = some next
      ∧ next.synced = true ∧ next.error = none ∧ next.data = state.data :=
  ⟨_, reducer_success state action ht, rfl, rfl, rfl⟩

theorem reducer_success_clears_witness :
    sampleState.error = some "boom" ∧ sampleState.synced = false
      ∧ ∃ next, reducer sampleState
          { type := some DELETE_NOTE_SUCCESS, payload := .undefined, meta := none,
            error := none } = some next
        ∧ next.synced = true ∧ next.error = none ∧ next.data = sampleState.data :=
  ⟨rfl, rfl, reducer_success_clears sampleState _ (Or.inr (Or.inr rfl))⟩

/-! ## The synced flag -/

theorem metaSynced_eq_true (action : Action) :
    metaSynced action = true ↔ ∃ m, action.meta = some m ∧ m.synced = some true := by
  unfold metaSynced
  cases hm : action.meta with
  | none => simp
  | some m =>
    cases hs : m.synced with
    | none => simp [hs]
    | some b => simp [hs]

/-- On ADD, UPDATE and DELETE the state returned has `synced` as the metadata gives it
and the `error` of the prior state. -/
theorem reducer_crud_synced (state : State) (action : Action) (hcrud : CrudAction action) :
    ∃ next, reducer state action = some next ∧ next.synced = metaSynced action
      ∧ next.error = state.error := by
  rcases hcrud with ⟨ht | ht, doc, hp⟩ | ⟨ht, ⟨doc, hp⟩ | ⟨i, hp⟩⟩
  · exact ⟨_, reducer_add state action doc ht hp, rfl, rfl⟩
  · exact ⟨_, reducer_update state action doc ht hp, rfl, rfl⟩
  · exact ⟨_, reducer_delete_note state action doc ht hp, rfl, rfl⟩
  · exact ⟨_, reducer_delete_id state action i ht hp, rfl, rfl⟩

/-- C11: for every state and every ADD_NOTE, UPDATE_NOTE or DELETE_NOTE action, `reducer`
returns a state whose `synced` is `true` exactly when `meta` is present and `meta.synced`
is `true`, and `false` otherwise, whatever `synced` was, and whose `error` is unchanged.
An action built by `addNote`, `updateNote` or `deleteNote` without a `meta` argument gives
`synced = false`, and one built with `{synced: true}` gives `synced = true`. -/
theorem reducer_crud_synced_from_meta (state : State) (action : Action)
    (hcrud : CrudAction action) :
    (∃ next, reducer state action = some next
        ∧ (next.synced = true ↔ ∃ m, action.meta = some m ∧ m.synced = some true)
        ∧ (next.synced = false ↔ ¬ ∃ m, action.meta = some m ∧ m.synced = some true)
        ∧ next.error = state.error)
      ∧ (∀ doc i, ∀ a ∈ [addNote (.note doc) none, updateNote (.note doc) none,
            deleteNote i none],
          ∃ next, reducer state a = some next ∧ next.synced = false
            ∧ next.error = state.error)
      ∧ (∀ doc i, ∀ a ∈ [addNote (.note doc) (some syncedMeta),
            updateNote (.note doc) (some syncedMeta), deleteNote i (some syncedMeta)],
          ∃ next, reducer state a = some next ∧ next.synced = true
            ∧ next.error = state.error) := by
  refine ⟨?_, ?_, ?_⟩
  · obtain ⟨next, hnext, hs, he⟩ := reducer_crud_synced state action hcrud
    refine ⟨next, hnext, ?_, ?_, he⟩
    · rw [hs]
      exact metaSynced_eq_true action
    · rw [hs, ← metaSynced_eq_true action]
      simp
  · intro doc i a ha
    simp only [List.mem_cons, List.mem_singleton, List.not_mem_nil, or_false] at ha
    rcases ha with rfl | rfl | rfl
    · exact ⟨_, reducer_add state _ doc rfl rfl, rfl, rfl⟩
    · exact ⟨_, reducer_update state _ doc rfl rfl, rfl, rfl⟩
    · exact ⟨_, reducer_delete_id state _ i rfl rfl, rfl, rfl⟩
  · intro doc i a ha
    simp only [List.mem_cons, List.mem_singleton, List.not_mem_nil, or_false] at ha
    rcases ha with rfl | rfl | rfl
    · exact ⟨_, reducer_add state _ doc rfl rfl, rfl, rfl⟩
    · exact ⟨_, reducer_update state _ doc rfl rfl, rfl, rfl⟩
    · exact ⟨_, reducer_delete_id state _ i rfl rfl, rfl, rfl⟩

theorem reducer_crud_synced_from_meta_witness :
    CrudAction bareUpdate
      ∧ ∃ next, reducer { sampleState with synced := true } bareUpdate = some next
        ∧ next.synced = false ∧ next.error = some "boom" := by
  have hcrud : CrudAction bareUpdate := Or.inl ⟨Or.inr rfl, noteAEcho, rfl⟩
  obtain ⟨⟨next, hnext, -, hfalse, herr⟩, -, -⟩ :=
    reducer_crud_synced_from_meta { sampleState with synced := true } bareUpdate hcrud
  refine ⟨hcrud, next, hnext, hfalse.2 ?_, herr⟩
  rintro ⟨m, hm, -⟩
  cases hm

/-! ## Moves within one lane -/

theorem xfactor_same_lane (payload : MovePayload)
    (hlane : payload.targetLaneId = payload.sourceLaneId) :
    xfactor payload = if payload.sourceIndex > payload.targetIndex then -1 else 1 := by
  unfold xfactor
  by_cases h : payload.sourceIndex > payload.targetIndex
  · simp [hlane, h]
  · simp [hlane, h]

theorem getNewIndex_of_no_candidate (notes : List Note) (payload : MovePayload)
    (h : ∀ n ∈ notes, ¬ Candidate payload (xfactor payload) n) :
    getNewIndex notes payload = payload.targetIndex + xfactor payload := by
  have hs : notes.foldl (scanNote payload (xfactor payload)) none = none :=
    (scan_eq_none payload _ notes none).2 ⟨rfl, h⟩
  simp only [getNewIndex, hs]

/-- C12: on a move within one lane in which no note of that lane other than the source
has an index strictly beyond `targetIndex` in the direction of the move (above it when
`sourceIndex <= targetIndex`, below it when `sourceIndex > targetIndex`), `getNewIndex`
returns `targetIndex + 1` when `sourceIndex <= targetIndex` and `targetIndex - 1` when
`sourceIndex > targetIndex`. -/
theorem getNewIndex_same_lane_past_the_end (notes : List Note) (payload : MovePayload)
    (hlane : payload.targetLaneId = payload.sourceLaneId)
    (hnone : ∀ n ∈ notes, n.id ≠ payload.sourceId → n.laneId = payload.targetLaneId →
      (payload.sourceIndex ≤ payload.targetIndex → ¬ n.index > payload.targetIndex)
        ∧ (payload.sourceIndex > payload.targetIndex → ¬ n.index < payload.targetIndex)) :
    (payload.sourceIndex ≤ payload.targetIndex →
        getNewIndex notes payload = payload.targetIndex + 1)
      ∧ (payload.sourceIndex > payload.targetIndex →
        getNewIndex notes payload = payload.targetIndex - 1) := by
  have hx := xfactor_same_lane payload hlane
  constructor
  · intro hle
    have hx1 : xfactor payload = 1 := by rw [hx, if_neg (not_lt.2 hle)]
    rw [getNewIndex_of_no_candidate notes payload, hx1]
    rintro n hn ⟨h1, h2, h3⟩
    rw [hx1, one_mul, one_mul] at h3
    exact (hnone n hn h1 (h2.trans hlane.symm)).1 hle h3
  · intro hgt
    have hx1 : xfactor payload = -1 := by rw [hx, if_pos hgt]
    rw [getNewIndex_of_no_candidate notes payload, hx1]
    · ring
    · rintro n hn ⟨h1, h2, h3⟩
      rw [hx1] at h3
      exact (hnone n hn h1 (h2.trans hlane.symm)).2 hgt (by linarith)

theorem getNewIndex_same_lane_past_the_end_witness :
    getNewIndex laneABC dragAToThree = 4 ∧ getNewIndex laneABC dragCToOne = 0 := by
  constructor
  · have h := (getNewIndex_same_lane_past_the_end laneABC dragAToThree rfl (by
      simp [laneABC, dragAToThree]
      norm_num)).1 (by norm_num [dragAToThree])
    rw [h]
    norm_num [dragAToThree]
  · have h := (getNewIndex_same_lane_past_the_end laneABC dragCToOne rfl (by
      simp [laneABC, dragCToOne])).2 (by norm_num [dragCToOne])
    rw [h]
    norm_num [dragCToOne]

/-! ## The unsubscribe handler -/

/-- C13: the unsubscribe handler dispatches one action, of type CLEAR_NOTES, when the
channel name is `'allNotes'`, and nothing for any other name; the dispatched action,
run through `reducer` from any state, leaves the store in its initial state, with no
notes. -/
theorem onUnsubscribe_clears (channelName : String) (state : State) :
    (channelName = "allNotes" →
        ∃ action, onUnsubscribe channelName = [action] ∧ action.type = some CLEAR_NOTES
          ∧ ∃ next, dispatchAll state (onUnsubscribe channelName) = some next
            ∧ next = initialState ∧ next.data = [])
      ∧ (channelName ≠ "allNotes" →
        onUnsubscribe channelName = []
          ∧ dispatchAll state (onUnsubscribe channelName) = some state)
      ∧ ((∃ action, action ∈ onUnsubscribe channelName) ↔ channelName = "allNotes") := by
  refine ⟨?_, ?_, ?_⟩
  · intro h
    subst h
    refine ⟨_, rfl, rfl, initialState, ?_, rfl, rfl⟩
    simp [onUnsubscribe, dispatchAll, reducer, ADD_NOTE, UPDATE_NOTE, DELETE_NOTE, CLEAR_NOTES]
  · intro h
    simp [onUnsubscribe, h, dispatchAll]
  · by_cases h : channelName = "allNotes"
    · simp [onUnsubscribe, h]
    · simp [onUnsubscribe, h]

theorem onUnsubscribe_clears_witness :
    (∃ action, onUnsubscribe "allNotes" = [action] ∧ action.type = some CLEAR_NOTES
        ∧ ∃ next, dispatchAll sampleState (onUnsubscribe "allNotes") = some next
          ∧ next = initialState ∧ next.data = [])
      ∧ onUnsubscribe "allLanes" = []
      ∧ dispatchAll sampleState (onUnsubscribe "allLanes") = some sampleState :=
  ⟨(onUnsubscribe_clears "allNotes" sampleState).1 rfl,
    (onUnsubscribe_clears "allLanes" sampleState).2.1 (by decide)⟩

/-! ## What the result depends on -/

theorem scanNote_of_skipped (payload : MovePayload) (x : ℚ) (acc : Option ℚ) (n : Note)
    (h : ¬ (n.id ≠ payload.sourceId ∧ n.laneId = payload.sourceLaneId)) :
    scanNote payload x acc n = acc := by
  have hskip : n.id = payload.sourceId ∨ n.laneId ≠ payload.sourceLaneId := by
    by_cases h1 : n.id = payload.sourceId
    · exact Or.inl h1
    · exact Or.inr fun h2 => h ⟨h1, h2⟩
  simp only [scanNote, if_pos hskip]

theorem scan_filter_scanned (payload : MovePayload) (x : ℚ) (notes : List Note)
    (acc : Option ℚ) :
    (notes.filter fun n =>
        decide (n.id ≠ payload.sourceId) && decide (n.laneId = payload.sourceLaneId)).foldl
        (scanNote payload x) acc
      = notes.foldl (scanNote payload x) acc := by
  induction notes generalizing acc with
  | nil => rfl
  | cons n rest ih =>
    by_cases h : n.id ≠ payload.sourceId ∧ n.laneId = payload.sourceLaneId
    · have hk : (decide (n.id ≠ payload.sourceId)
          && decide (n.laneId = payload.sourceLaneId)) = true := by
        simp [h.1, h.2]
      simp only [List.filter_cons, hk, if_true, List.foldl_cons, ih]
    · have hk : (decide (n.id ≠ payload.sourceId)
          && decide (n.laneId = payload.sourceLaneId)) = false := by
        rw [Bool.eq_false_iff]
        simpa using h
      simp only [List.filter_cons, hk, Bool.false_eq_true, if_false, List.foldl_cons,
        scanNote_of_skipped payload x acc n h, ih]

/-- The result depends only on the notes of the lane `sourceLaneId` other than the
source. -/
theorem getNewIndex_filter_scanned (notes : List Note) (payload : MovePayload) :
    getNewIndex
        (notes.filter fun n =>
          decide (n.id ≠ payload.sourceId) && decide (n.laneId = payload.sourceLaneId))
        payload
      = getNewIndex notes payload := by
  simp only [getNewIndex, scan_filter_scanned]

/-- On a move within one lane, the notes of the target lane other than the source
decide the result. -/
theorem getNewIndex_targetLaneOthers_of_same_lane (notes : List Note) (payload : MovePayload)
    (hlane : payload.targetLaneId = payload.sourceLaneId) :
    getNewIndex (targetLaneOthers notes payload) payload = getNewIndex notes payload := by
  unfold targetLaneOthers
  rw [hlane]
  exact getNewIndex_filter_scanned notes payload

/-- C14: the result is claimed to depend only on the notes of the target lane other than
the source. On the cross-lane move of `note-s` onto `note-u` the board `strayNotes` gives
`(2 + 1) / 2 = 3/2`, from `note-q` of the source lane; with the source and `note-q`
removed, which leaves exactly the target lane's `note-u`, the code gives `2 - 1 = 1`. -/
theorem getNewIndex_cross_lane_reads_source_lane :
    targetLaneOthers strayNotes twoLaneMove
        = [{ id := "note-u", title := "u", laneId := "lane-2", userId := "user-1", index := 2 }]
      ∧ getNewIndex strayNotes twoLaneMove = 3 / 2
      ∧ getNewIndex (targetLaneOthers strayNotes twoLaneMove) twoLaneMove = 1
      ∧ getNewIndex (targetLaneOthers strayNotes twoLaneMove) twoLaneMove
        ≠ getNewIndex strayNotes twoLaneMove := by
  have h1 : targetLaneOthers strayNotes twoLaneMove
      = [{ id := "note-u", title := "u", laneId := "lane-2", userId := "user-1",
           index := 2 }] := by
    simp [targetLaneOthers, strayNotes, twoLaneMove, List.filter]
  have h2 : getNewIndex strayNotes twoLaneMove = 3 / 2 := by
    simp [getNewIndex, strayNotes, twoLaneMove, xfactor, scanNote, belowMin]
    norm_num
  have h3 : getNewIndex (targetLaneOthers strayNotes twoLaneMove) twoLaneMove = 1 := by
    rw [h1]
    simp [getNewIndex, twoLaneMove, xfactor, scanNote, belowMin]
    norm_num
  refine ⟨h1, h2, h3, ?_⟩
  rw [h2, h3]
  norm_num

/-! ## The side of the target -/

/-- The result is above `targetIndex` exactly on a move within one lane with
`sourceIndex <= targetIndex`, and below it on every other move. -/
theorem getNewIndex_side (notes : List Note) (payload : MovePayload) :
    (payload.targetLaneId = payload.sourceLaneId
        ∧ payload.sourceIndex ≤ payload.targetIndex →
      getNewIndex notes payload > payload.targetIndex)
    ∧ (¬ (payload.targetLaneId = payload.sourceLaneId
        ∧ payload.sourceIndex ≤ payload.targetIndex) →
      getNewIndex notes payload < payload.targetIndex) := by
  have h := getNewIndex_beyond_target notes payload
  constructor
  · rintro ⟨hlane, hle⟩
    have hx : xfactor payload = 1 := by
      rw [xfactor_same_lane payload hlane, if_neg (not_lt.2 hle)]
    rw [hx, one_mul, one_mul] at h
    exact h
  · intro hn
    have hx : xfactor payload = -1 := by
      unfold xfactor
      rw [if_pos]
      by_cases hlane : payload.targetLaneId = payload.sourceLaneId
      · exact Or.inl ⟨hlane, not_le.1 fun hle => hn ⟨hlane, hle⟩⟩
      · exact Or.inr hlane
    rw [hx] at h
    linarith

/-- C15: the result is claimed to be strictly less than `targetIndex` in every case other
than a move within one lane with `sourceIndex < targetIndex`. Dragging `note-a` onto
`note-b` of the same lane, both at index 1, is such a case (`sourceIndex = targetIndex`),
and the code returns `1 + 1 = 2`, which is greater than the target index 1. -/
theorem getNewIndex_tie_goes_below :
    tiedMove.targetLaneId = tiedMove.sourceLaneId
      ∧ ¬ tiedMove.sourceIndex < tiedMove.targetIndex
      ∧ xfactor tiedMove = 1
      ∧ getNewIndex tiedNotes tiedMove = 2
      ∧ ¬ getNewIndex tiedNotes tiedMove < tiedMove.targetIndex := by
  have hr : getNewIndex tiedNotes tiedMove = 2 := by
    simp [getNewIndex, tiedNotes, tiedMove, xfactor, scanNote, belowMin]
    norm_num
  refine ⟨rfl, ?_, ?_, hr, ?_⟩
  · simp [tiedMove]
  · simp [xfactor, tiedMove]
  · rw [hr]
    norm_num [tiedMove]

/-! ## Drag -/

/-- C16: for every notes state and drag props, `dragNote` dispatches exactly one action,
of type DRAG_NOTE, with payload `{sourceId, index: getNewIndex(notes.data, props),
laneId: targetLaneId}`, and sets `index` and `laneId` of the monitor's item to those two
values, leaving its other keys alone (it gains no `sourceId`); `reducer` applies the
action, and afterwards every note of the store with id `sourceId` has the `index` and
`laneId` of the item, such a note being there when there was one before. -/
theorem dragNote_dispatches_one_drag (props : DragProps) (notes : State) :
    ∃ action, (dragNote props notes).dispatched = [action]
      ∧ action.type = some DRAG_NOTE
      ∧ action.payload
        = .drag (getNewIndex notes.data props.toMovePayload) props.targetLaneId props.sourceId
      ∧ (dragNote props notes).item.index = getNewIndex notes.data props.toMovePayload
      ∧ (dragNote props notes).item.laneId = props.targetLaneId
      ∧ (dragNote props notes).item.sourceId = props.item.sourceId
      ∧ (dragNote props notes).item.id = props.item.id
      ∧ ∃ next, reducer notes action = some next
        ∧ (∀ n ∈ next.data, n.id = props.sourceId →
            n.index = (dragNote props notes).item.index
              ∧ n.laneId = (dragNote props notes).item.laneId)
        ∧ (props.sourceId ∈ ids notes.data → ∃ n ∈ next.data, n.id = props.sourceId) := by
  refine ⟨_, rfl, rfl, rfl, rfl, rfl, rfl, rfl, _, reducer_drag notes _ _ _ _ rfl rfl, ?_, ?_⟩
  · intro n hn hid
    simp only [List.mem_map] at hn
    obtain ⟨old, -, rfl⟩ := hn
    by_cases h : old.id = props.sourceId
    · simp only [if_pos h]
      exact ⟨rfl, rfl⟩
    · simp only [if_neg h] at hid
      exact absurd hid h
  · intro hmem
    simp only [ids, List.mem_map] at hmem
    obtain ⟨old, hold, hid⟩ := hmem
    refine ⟨_, List.mem_map.2 ⟨old, hold, rfl⟩, ?_⟩
    simp only [if_pos hid]
    exact hid

/-! ## Distinct indices within a lane -/

/-- The result differs from the index of every other note of the lane the loop scans. -/
theorem getNewIndex_ne_scanned (notes : List Note) (payload : MovePayload) (n : Note)
    (hn : n ∈ notes) (hid : n.id ≠ payload.sourceId)
    (hl : n.laneId = payload.sourceLaneId) :
    getNewIndex notes payload ≠ n.index := by
  intro heq
  by_cases hc : xfactor payload * n.index > xfactor payload * payload.targetIndex
  · have h := getNewIndex_before_scanned notes payload n hn ⟨hid, hl, hc⟩
    rw [heq] at h
    exact lt_irrefl _ h
  · have h := getNewIndex_beyond_target notes payload
    rw [heq] at h
    exact hc h

theorem dragOne_id (index : ℚ) (laneId sourceId : String) (note : Note) :
    (dragOne index laneId sourceId note).id = note.id := by
  unfold dragOne
  split <;> rfl

theorem dragOne_of_ne (index : ℚ) (laneId sourceId : String) (note : Note)
    (h : note.id ≠ sourceId) : dragOne index laneId sourceId note = note := by
  simp only [dragOne, if_neg h]

theorem ids_map_dragOne (index : ℚ) (laneId sourceId : String) (data : List Note) :
    ids (data.map (dragOne index laneId sourceId)) = ids data := by
  simp only [ids, List.map_map]
  apply List.map_congr_left
  intro n _
  exact dragOne_id index laneId sourceId n

theorem forall₂_map_dragOne (index : ℚ) (laneId sourceId : String) (data : List Note) :
    List.Forall₂ (fun old new => old.id ≠ sourceId → new = old) data
      (data.map (dragOne index laneId sourceId)) := by
  induction data with
  | nil => exact List.Forall₂.nil
  | cons n rest ih =>
    rw [List.map_cons]
    exact List.Forall₂.cons (fun h => dragOne_of_ne index laneId sourceId n h) ih

/-- Distinct indices by position give distinct indices for notes of different ids. -/
theorem distinctInLane_of_nodup (lane : String) (data : List Note)
    (h : (laneIndices lane data).Nodup) : DistinctInLane lane data := by
  intro a ha b hb hla hlb hid heq
  have hma : a ∈ data.filter fun n => decide (n.laneId = lane) := by
    simp [List.mem_filter, ha, hla]
  have hmb : b ∈ data.filter fun n => decide (n.laneId = lane) := by
    simp [List.mem_filter, hb, hlb]
  have := List.inj_on_of_nodup_map h hma hmb heq
  exact hid (by rw [this])

/-- Distinct indices for notes of different ids, with distinct ids, give distinct
indices by position. -/
theorem nodup_laneIndices (lane : String) (data : List Note) (hids : (ids data).Nodup)
    (h : DistinctInLane lane data) : (laneIndices lane data).Nodup := by
  have hnd : data.Nodup := List.Nodup.of_map Note.id hids
  apply List.Nodup.map_on _ (hnd.filter _)
  intro a ha b hb heq
  simp only [List.mem_filter, decide_eq_true_eq] at ha hb
  by_cases hid : a.id = b.id
  · exact List.inj_on_of_nodup_map hids ha.1 hb.1 hid
  · exact absurd heq (h a ha.1 b hb.1 ha.2 hb.2 hid)

/-- A drag keeps the indices of notes of different ids distinct in the lane the loop
scans. -/
theorem distinctInLane_map_dragOne (data : List Note) (payload : MovePayload)
    (h : DistinctInLane payload.sourceLaneId data) :
    DistinctInLane payload.sourceLaneId
      (data.map (dragOne (getNewIndex data payload) payload.targetLaneId payload.sourceId)) := by
  intro a' ha' b' hb' hla hlb hid
  obtain ⟨a, ha, rfl⟩ := List.mem_map.1 ha'
  obtain ⟨b, hb, rfl⟩ := List.mem_map.1 hb'
  rw [dragOne_id, dragOne_id] at hid
  by_cases hsa : a.id = payload.sourceId
  · have hsb : b.id ≠ payload.sourceId := fun e => hid (hsa.trans e.symm)
    rw [dragOne_of_ne _ _ _ b hsb] at hlb ⊢
    simp only [dragOne, if_pos hsa, dragged]
    exact getNewIndex_ne_scanned data payload b hb hsb hlb
  · rw [dragOne_of_ne _ _ _ a hsa] at hla ⊢
    by_cases hsb : b.id = payload.sourceId
    · simp only [dragOne, if_pos hsb, dragged]
      exact fun e => getNewIndex_ne_scanned data payload a ha hsa hla e.symm
    · rw [dragOne_of_ne _ _ _ b hsb] at hlb ⊢
      exact h a ha b hb hla hlb hid

/-- C17: take a state whose notes of lane `lane` have pairwise distinct indices and a
move within that lane (`sourceLaneId = targetLaneId = lane`, `sourceId` the id of a note
of the lane). The index `getNewIndex` returns differs from the index of every other note
of the lane; `reducer` applies the DRAG_NOTE action `dragNote` dispatches; afterwards no
note other than the source has changed, notes of the lane with different ids have
different indices, and, the ids of the notes being distinct, the indices of the notes of
the lane are still pairwise distinct. -/
theorem drag_same_lane_keeps_distinct (state : State) (props : DragProps) (lane : String)
    (hsrc : props.sourceLaneId = lane) (htgt : props.targetLaneId = lane)
    (hmem : ∃ n ∈ state.data, n.id = props.sourceId ∧ n.laneId = lane)
    (hdist : (laneIndices lane state.data).Nodup) :
    (∀ n ∈ state.data, n.id ≠ props.sourceId → n.laneId = lane →
        getNewIndex state.data props.toMovePayload ≠ n.index)
      ∧ ∃ next, dispatchAll state (dragNote props state).dispatched = some next
        ∧ List.Forall₂ (fun old new => old.id ≠ props.sourceId → new = old)
            state.data next.data
        ∧ (∃ n ∈ next.data, n.id = props.sourceId ∧ n.laneId = lane
            ∧ n.index = getNewIndex state.data props.toMovePayload)
        ∧ DistinctInLane lane next.data
        ∧ ((ids state.data).Nodup → (laneIndices lane next.data).Nodup) := by
  subst hsrc
  have hnext : dispatchAll state (dragNote props state).dispatched
      = some { synced := state.synced, error := state.error,
               data := state.data.map
                 (dragOne (getNewIndex state.data props.toMovePayload) props.targetLaneId
                   props.sourceId) } := by
    simp only [dragNote, dispatchAll]
    rw [reducer_drag state _ _ _ _ rfl rfl]
    rfl
  have hA := distinctInLane_map_dragOne state.data props.toMovePayload
    (distinctInLane_of_nodup _ _ hdist)
  refine ⟨fun n hn hid hl => getNewIndex_ne_scanned state.data props.toMovePayload n hn hid hl,
    _, hnext, forall₂_map_dragOne _ _ _ _, ?_, hA, ?_⟩
  · obtain ⟨n, hn, hid, -⟩ := hmem
    refine ⟨_, List.mem_map.2 ⟨n, hn, rfl⟩, ?_, ?_, ?_⟩
    · rw [dragOne_id]
      exact hid
    · simp only [dragOne, if_pos hid, dragged]
      exact htgt
    · simp only [dragOne, if_pos hid, dragged]
  · intro hids
    apply nodup_laneIndices _ _ _ hA
    rw [ids_map_dragOne]
    exact hids

theorem drag_same_lane_keeps_distinct_witness :
    (laneIndices "lane-1" laneABC).Nodup
      ∧ ∃ next, dispatchAll { synced := true, error := none, data := laneABC }
          (dragNote dragAProps { synced := true, error := none, data := laneABC }).dispatched
          = some next
        ∧ DistinctInLane "lane-1" next.data
        ∧ (laneIndices "lane-1" next.data).Nodup := by
  have hd : (laneIndices "lane-1" laneABC).Nodup := by
    simp [laneIndices, laneABC, List.filter]
  have hids : (ids laneABC).Nodup := by
    simp [ids, laneABC]
  obtain ⟨-, next, hnext, -, -, hA, hB⟩ :=
    drag_same_lane_keeps_distinct { synced := true, error := none, data := laneABC }
      dragAProps "lane-1" rfl rfl
      ⟨{ id := "note-a", title := "a", laneId := "lane-1", userId := "user-1", index := 1 },
        by simp [laneABC], rfl, rfl⟩ hd
  exact ⟨hd, next, hnext, hA, hB hids⟩

/-! ## Metadata of the action creators -/

theorem assignMeta_emptyMeta (m : Meta) : assignMeta emptyMeta (some m) = m := by
  obtain ⟨t, o, y⟩ := m
  cases t <;> cases o <;> cases y <;> rfl

/-- The merged metadata, key by key: the supplied value where there is one, the value of
`baseMeta` otherwise. -/
theorem assignMeta_baseMeta_fields (supplied : Option Meta) :
    (assignMeta baseMeta supplied).table = some ((supplied.bind Meta.table).getD "notes")
      ∧ (assignMeta baseMeta supplied).isOptimistic
        = some ((supplied.bind Meta.isOptimistic).getD true)
      ∧ (assignMeta baseMeta supplied).synced
        = some ((supplied.bind Meta.synced).getD false) := by
  cases supplied with
  | none => exact ⟨rfl, rfl, rfl⟩
  | some m =>
    obtain ⟨t, o, y⟩ := m
    cases t <;> cases o <;> cases y <;> exact ⟨rfl, rfl, rfl⟩

theorem length_heapAssign (heap : List Meta) (target : Nat) (source : Option Nat) :
    (heapAssign heap target source).length = heap.length := by
  unfold heapAssign
  cases source with
  | none => rfl
  | some s =>
    simp only
    split
    · exact List.length_set _ _ _
    · rfl

/-- The call `Object.assign(target, source)` leaves every object but the target alone. -/
theorem heapAssign_getElem?_of_ne (heap : List Meta) (target : Nat) (source : Option Nat)
    (i : Nat) (h : i ≠ target) : (heapAssign heap target source)[i]? = heap[i]? := by
  unfold heapAssign
  cases source with
  | none => rfl
  | some s =>
    simp only
    split
    · exact List.getElem?_set_ne (Ne.symm h)
    · rfl

theorem heapAssign_getElem?_target (heap : List Meta) (target s : Nat) (t src : Meta)
    (ht : heap[target]? = some t) (hs : heap[s]? = some src) :
    (heapAssign heap target (some s))[target]? = some (assignMeta t (some src)) := by
  have hlt : target < heap.length := (List.getElem?_eq_some_iff.1 ht).1
  simp only [heapAssign, ht, hs]
  rw [List.getElem?_set_self hlt]

/-- The expression `Object.assign({}, baseMeta, meta)` on the heap: the new object is the
base overridden by the supplied object, and no object there before is written. -/
theorem assignFresh_spec (heap : List Meta) (base : Nat) (suppliedAt : Option Nat) (b : Meta)
    (hbase : heap[base]? = some b) (hsup : ∀ a, suppliedAt = some a → a < heap.length) :
    (assignFresh heap base suppliedAt).1 = heap.length
      ∧ (assignFresh heap base suppliedAt).2[heap.length]?
        = some (assignMeta b (suppliedAt.bind fun a => heap[a]?))
      ∧ ∀ i, i < heap.length → (assignFresh heap base suppliedAt).2[i]? = heap[i]? := by
  have hblt : base < heap.length := (List.getElem?_eq_some_iff.1 hbase).1
  have h1t : (heap ++ [emptyMeta])[heap.length]? = some emptyMeta := by simp
  have h1 : ∀ i, i < heap.length → (heap ++ [emptyMeta])[i]? = heap[i]? :=
    fun i hi => List.getElem?_append_left hi
  have h2t : (heapAssign (heap ++ [emptyMeta]) heap.length (some base))[heap.length]?
      = some b := by
    rw [heapAssign_getElem?_target _ _ _ emptyMeta b h1t ((h1 base hblt).trans hbase),
      assignMeta_emptyMeta]
  have h2 : ∀ i, i < heap.length →
      (heapAssign (heap ++ [emptyMeta]) heap.length (some base))[i]? = heap[i]? :=
    fun i hi => (heapAssign_getElem?_of_ne _ _ _ i (Nat.ne_of_lt hi)).trans (h1 i hi)
  refine ⟨rfl, ?_, ?_⟩
  · cases suppliedAt with
    | none => exact h2t
    | some a =>
      have ha : a < heap.length := hsup a rfl
      have hm : heap[a]? = some (heap.get ⟨a, ha⟩) := List.getElem?_eq_getElem ha
      have hbind : ((some a).bind fun a => heap[a]?) = some (heap.get ⟨a, ha⟩) := hm
      rw [hbind]
      exact heapAssign_getElem?_target _ _ _ b (heap.get ⟨a, ha⟩) h2t ((h2 a ha).trans hm)
  · intro i hi
    simp only [assignFresh]
    rw [heapAssign_getElem?_of_ne _ _ _ i (Nat.ne_of_lt hi)]
    exact h2 i hi

/-- C18: for every payload and every `meta` argument, the action built by `addNote`,
`updateNote` or `deleteNote` has as `meta` the base metadata
`{table: 'notes', isOptimistic: true, synced: false}` overridden key by key by the
supplied `meta`; every action the change-feed handler dispatches carries
`table = 'notes'`, `isOptimistic = true` and `synced = true`; and the call
`Object.assign({}, baseMeta, meta)`, run on a heap that holds `baseMeta`, builds that
merged object as a new one and writes no object that was there, `baseMeta` included. -/
theorem creators_merge_meta (heap : List Meta) (base : Nat) (suppliedAt : Option Nat)
    (hbase : heap[base]? = some baseMeta)
    (hsup : ∀ a, suppliedAt = some a → a < heap.length) :
    (∀ payload id supplied,
        ∀ a ∈ [addNote payload supplied, updateNote payload supplied, deleteNote id supplied],
          ∃ m, a.meta = some m
            ∧ m.table = some ((supplied.bind Meta.table).getD "notes")
            ∧ m.isOptimistic = some ((supplied.bind Meta.isOptimistic).getD true)
            ∧ m.synced = some ((supplied.bind Meta.synced).getD false))
      ∧ (∀ data, ∀ a ∈ onFeedEvent data,
          a.meta = some
            { table := some "notes", isOptimistic := some true, synced := some true })
      ∧ (assignFresh heap base suppliedAt).2[(assignFresh heap base suppliedAt).1]?
        = some (assignMeta baseMeta (suppliedAt.bind fun a => heap[a]?))
      ∧ (assignFresh heap base suppliedAt).2[base]? = some baseMeta
      ∧ ∀ i, i < heap.length → (assignFresh heap base suppliedAt).2[i]? = heap[i]? := by
  obtain ⟨h1, h2, h3⟩ := assignFresh_spec heap base suppliedAt baseMeta hbase hsup
  have hblt : base < heap.length := (List.getElem?_eq_some_iff.1 hbase).1
  refine ⟨?_, ?_, ?_, ?_, h3⟩
  · intro payload id supplied a ha
    simp only [List.mem_cons, List.mem_singleton, List.not_mem_nil, or_false] at ha
    rcases ha with rfl | rfl | rfl <;>
      exact ⟨_, rfl, assignMeta_baseMeta_fields supplied⟩
  · intro data a ha
    obtain ⟨old_val, new_val⟩ := data
    cases old_val with
    | none =>
      simp only [onFeedEvent, List.mem_singleton] at ha
      subst ha
      rfl
    | some old =>
      cases new_val with
      | none =>
        simp only [onFeedEvent, List.mem_singleton] at ha
        subst ha
        rfl
      | some new =>
        simp only [onFeedEvent, List.mem_singleton] at ha
        subst ha
        rfl
  · rw [h1]
    exact h2
  · rw [h3 base hblt]
    exact hbase

theorem creators_merge_meta_witness :
    [baseMeta, syncedMeta][0]? = some baseMeta
      ∧ (assignFresh [baseMeta, syncedMeta] 0 (some 1)).2[
          (assignFresh [baseMeta, syncedMeta] 0 (some 1)).1]?
        = some (assignMeta baseMeta (some syncedMeta))
      ∧ (assignFresh [baseMeta, syncedMeta] 0 (some 1)).2[0]? = some baseMeta := by
  obtain ⟨-, -, h3, h4, -⟩ :=
    creators_merge_meta [baseMeta, syncedMeta] 0 (some 1) rfl
      (fun a ha => by
        cases ha
        decide)
  exact ⟨rfl, h3, h4⟩

end Notes
